import Mathlib

/-!
# Ordered file collection of `src/pdf/app.js` (class `PDFMerger`)

A shallow embedding of the list-management and merge-sequencing code of
`PDFMerger`:

* `this.files` is a JavaScript array; it is modelled as a `List (Option α)`
  where `none` is the JavaScript value `undefined` (an array slot can hold it:
  `reorderFiles` inserts whatever `splice` handed back, and that is `undefined`
  when nothing was deleted).
* `Array.prototype.splice` is modelled after ECMA-262 (relative start, clamped
  delete count) on integer arguments.
* `async` methods are modelled as sequential runs: `await` either yields a value
  or throws (a rejected promise), and a throw leaves the enclosing loop.
* DOM effects that the properties talk about (`alert`, the external library
  calls, the download) are recorded in an effect trace.
-/

namespace PDFMerger

/-! ## `Array.prototype.splice` -/

/-- ECMA-262 `splice`, steps 3-6: the relative `start` is counted from the end when
negative, and clamped to `[0, len]`. -/
def actualStart (len : Nat) (start : Int) : Nat :=
  if start < 0 then ((len : Int) + start).toNat else min start.toNat len

/-- ECMA-262 `splice`, step 10: `deleteCount` clamped to `[0, len - actualStart]`. -/
def actualDeleteCount (len s : Nat) (deleteCount : Int) : Nat :=
  min deleteCount.toNat (len - s)

/-- The call `xs.splice(start, deleteCount, ...items)`: the first component is the
array after the call, the second is the returned array of deleted elements. -/
def splice {α : Type} (xs : List α) (start deleteCount : Int) (items : List α) :
    List α × List α :=
  let s := actualStart xs.length start
  let d := actualDeleteCount xs.length s deleteCount
  (xs.take s ++ items ++ xs.drop (s + d), (xs.drop s).take d)

/-! ## `reorderFiles`, `handleItemDrop`, `removeFile` -/

/-- `reorderFiles(fromIndex, toIndex)` (lines 135-139):
`const [movedFile] = this.files.splice(fromIndex, 1)` then
`this.files.splice(toIndex, 0, movedFile)`. The destructuring reads element 0 of the
deleted array, which is `undefined` when that array is empty. -/
def reorderFiles {α : Type} (files : List (Option α)) (fromIndex toIndex : Int) :
    List (Option α) :=
  let r := splice files fromIndex 1 []
  let movedFile : Option α := r.2.headD none
  (splice r.1 toIndex 0 [movedFile]).1

/-- `handleItemDrop(e)` (lines 121-129) on the two parsed integers: the reorder is
requested only when the dragged and the target index differ. -/
def handleItemDrop {α : Type} (files : List (Option α)) (draggedIndex targetIndex : Int) :
    List (Option α) :=
  if draggedIndex ≠ targetIndex then reorderFiles files draggedIndex targetIndex else files

/-- `removeFile(index)` (lines 141-148): `this.files.splice(index, 1)`; the first
component is `this.files` afterwards, the second the array `splice` returned. -/
def removeFile {α : Type} (files : List (Option α)) (index : Int) :
    List (Option α) × List (Option α) :=
  splice files index 1 []

/-! ## `handleFiles` -/

/-- Raw bytes of a file. -/
abbrev ArrayBuffer := List Nat

/-- A candidate file as delivered by the picker or a drop: the fields of the browser
`File` object the code reads. `arrayBuffer` is the outcome of
`await file.arrayBuffer()`: `some bytes` when the promise resolves, `none` when it
rejects (the bytes cannot be read). -/
structure File where
  type : String
  name : String
  size : Nat
  arrayBuffer : Option ArrayBuffer
deriving DecidableEq, Repr

/-- The object literal built at lines 52-58. `id` is the value of
`Date.now() + Math.random()` at that moment; `size` is the display string returned
by `formatFileSize`. -/
structure FileData where
  id : Nat
  file : File
  name : String
  size : String
  arrayBuffer : ArrayBuffer
deriving DecidableEq, Repr

/-- What a run of `handleFiles` leaves behind: `this.files`, the number of
`this.files.push` calls it made, and whether the method ran to its end (`false`: an
exception left the method, because an `await` rejected or because `renderFilesList`
threw). -/
structure AddResult where
  files : List (Option FileData)
  pushed : Nat
  completed : Bool
deriving DecidableEq, Repr

/-- The `for (const file of files)` loop of `handleFiles` (lines 50-61), at the
candidate with position `k` of the batch. `formatFileSize` is floating-point display
code and is taken as the parameter `fmt`; `ids k` is the value
`Date.now() + Math.random()` takes while candidate `k` is processed. There is no
`try` around the `await`: a rejected read ends the loop and the method. -/
def handleFilesLoop (fmt : Nat → String) (ids : Nat → Nat) :
    Nat → List (Option FileData) → Nat → List File → AddResult
  | _, files, pushed, [] => ⟨files, pushed, true⟩
  | k, files, pushed, file :: rest =>
    if file.type = "application/pdf" then
      match file.arrayBuffer with
      | none => ⟨files, pushed, false⟩
      | some buf =>
        let fileData : FileData := ⟨ids k, file, file.name, fmt file.size, buf⟩
        handleFilesLoop fmt ids (k + 1) (files ++ [some fileData]) (pushed + 1) rest
    else handleFilesLoop fmt ids (k + 1) files pushed rest

/-- Whether `renderFilesList()` (lines 74-110) returns normally on `this.files`: its
`forEach` reads `file.name` and `file.size` of every slot (lines 91-92), which throws a
TypeError on a slot holding `undefined`. -/
def renderFilesList (files : List (Option FileData)) : Bool :=
  files.all Option.isSome

/-- `handleFiles(files)` (lines 49-64) on the current `this.files` and a batch: the
loop, then `this.renderFilesList()` and `this.showFilesSection()` (lines 62-63). The
method runs to its end when no read was rejected and the rendering does not throw;
the pushes made before an exception stay. -/
def handleFiles (fmt : Nat → String) (ids : Nat → Nat) (files : List (Option FileData))
    (batch : List File) : AddResult :=
  let r := handleFilesLoop fmt ids 0 files 0 batch
  ⟨r.files, r.pushed, r.completed && renderFilesList r.files⟩

/-! ## `mergePDFs` -/

/-- The external library `window.PDFLib`, abstractly: `load` parses a buffer into the
page list of a document, or fails. A document is its page list; `PDFDocument.create()`
is the empty document and `save` serialises the document as it stands. -/
structure PDFLib (Page : Type) where
  load : ArrayBuffer → Option (List Page)

/-- The observable actions of `mergePDFs`. -/
inductive Effect (Page : Type) where
  | alert (message : String)
  | showLoading
  | hideLoading
  | create
  | load (buffer : ArrayBuffer)
  | copyPages (indices : List Nat)
  | addPage (page : Page)
  | save
  | download (document : List Page) (filename : String)
  | consoleError
deriving DecidableEq, Repr

/-- The actions of the body of the merge loop: calls of the library on documents. -/
def Effect.isLibraryCall {Page : Type} : Effect Page → Bool
  | .load _ => true
  | .copyPages _ => true
  | .addPage _ => true
  | _ => false

/-- The call `pdf.getPageIndices()`: the indices `0 .. n-1` of the pages of `pdf`. -/
def getPageIndices {Page : Type} (pdf : List Page) : List Nat :=
  List.range pdf.length

/-- The call `mergedPdf.copyPages(pdf, indices)`: the pages of `pdf` at `indices`. -/
def copyPages {Page : Type} (pdf : List Page) (indices : List Nat) : List Page :=
  indices.filterMap (fun i => pdf[i]?)

/-- The call `mergedPdf.addPage(page)`: appends one page. -/
def addPage {Page : Type} (mergedPdf : List Page) (page : Page) : List Page :=
  mergedPdf ++ [page]

/-- The `for (const fileData of this.files)` loop (lines 170-174). The state is the
merged document and the trace so far; `Except.error` carries the trace at the moment
an exception is thrown (reading `.arrayBuffer` of `undefined`, or a failing `load`). -/
def mergeLoop {Page : Type} (lib : PDFLib Page) :
    List (Option FileData) → List Page → List (Effect Page) →
      Except (List (Effect Page)) (List Page × List (Effect Page))
  | [], mergedPdf, tr => .ok (mergedPdf, tr)
  | none :: _, _, tr => .error tr
  | some fileData :: rest, mergedPdf, tr =>
    match lib.load fileData.arrayBuffer with
    | none => .error (tr ++ [.load fileData.arrayBuffer])
    | some pdf =>
      let indices := getPageIndices pdf
      let pages := copyPages pdf indices
      mergeLoop lib rest (pages.foldl addPage mergedPdf)
        (tr ++ [.load fileData.arrayBuffer, .copyPages indices] ++ pages.map .addPage)

/-- The characters `String.prototype.trim` strips: ECMA-262 WhiteSpace (TAB, VT, FF,
SP, NBSP, ZWNBSP and the Unicode space separators) and LineTerminator (LF, CR, LS, PS). -/
def isTrimChar (c : Char) : Bool :=
  let n := c.toNat
  n = 0x09 || n = 0x0A || n = 0x0B || n = 0x0C || n = 0x0D || n = 0x20 || n = 0xA0 ||
  n = 0x1680 || (0x2000 ≤ n && n ≤ 0x200A) || n = 0x2028 || n = 0x2029 || n = 0x202F ||
  n = 0x205F || n = 0x3000 || n = 0xFEFF

/-- `String.prototype.trim` on the characters of a string: the leading and the
trailing run of strippable characters are removed. -/
def trim (s : List Char) : List Char :=
  ((s.dropWhile isTrimChar).reverse.dropWhile isTrimChar).reverse

/-- Lines 179-180: `this.outputName.value.trim() || "merged-document"` (the empty
string is the only falsy string), then the template `${filename}.pdf`. -/
def outputFilename (value : String) : String :=
  let trimmed := trim value.data
  let filename := if trimmed = [] then "merged-document".data else trimmed
  String.mk (filename ++ ".pdf".data)

/-- What a run of `mergePDFs` leaves behind: `this.files` (the method never assigns
to it) and the trace of its actions. -/
structure MergeResult (Page : Type) where
  files : List (Option FileData)
  trace : List (Effect Page)

/-- `mergePDFs()` (lines 158-187), with `outputName` the value of the name field. -/
def mergePDFs {Page : Type} (lib : PDFLib Page) (files : List (Option FileData))
    (outputName : String) : MergeResult Page :=
  if files.length = 0 then
    ⟨files, [.alert "Please upload at least one PDF file."]⟩
  else
    match mergeLoop lib files [] [.showLoading, .create] with
    | .ok (mergedPdf, tr) =>
      ⟨files, tr ++ [.save, .download mergedPdf (outputFilename outputName), .hideLoading]⟩
    | .error tr =>
      ⟨files, tr ++ [.consoleError,
        .alert "An error occurred while merging the PDFs. Please try again.", .hideLoading]⟩

/-! ## Sessions: sequences of operations -/

/-- One request to the collection. An `add` carries the batch and the identifier
values drawn while it runs. -/
inductive Op where
  | add (batch : List File) (ids : Nat → Nat)
  | removeAt (index : Int)
  | moveTo (fromIndex toIndex : Int)

/-- The collection together with two counters that only observe: `accepted` counts
the `push` calls of `handleFiles`, `removed` the entries `removeFile` deleted (the
length of the array its `splice` returned). -/
structure Session where
  files : List (Option FileData)
  accepted : Nat
  removed : Nat
deriving DecidableEq, Repr

/-- The session at page load: `this.files = []`. -/
def Session.init : Session := ⟨[], 0, 0⟩

/-- One operation applied to a session. -/
def Session.step (fmt : Nat → String) (s : Session) : Op → Session
  | .add batch ids =>
    let r := handleFiles fmt ids s.files batch
    ⟨r.files, s.accepted + r.pushed, s.removed⟩
  | .removeAt index =>
    let r := removeFile s.files index
    ⟨r.1, s.accepted, s.removed + r.2.length⟩
  | .moveTo fromIndex toIndex =>
    ⟨reorderFiles s.files fromIndex toIndex, s.accepted, s.removed⟩

/-- A sequence of operations applied in order. -/
def Session.run (fmt : Nat → String) (s : Session) (ops : List Op) : Session :=
  ops.foldl (Session.step fmt) s

/-- The accessor `size()`: `this.files.length`. -/
def Session.size (s : Session) : Nat := s.files.length

/-- Every `moveTo` of the sequence is issued, at its turn, on a non-empty collection
with a `fromIndex` below the current length (so that its `splice(fromIndex, 1)` has an
entry to delete). -/
def Session.movesAddressEntries (fmt : Nat → String) : Session → List Op → Bool
  | _, [] => true
  | s, .moveTo fromIndex toIndex :: ops =>
    decide (s.files ≠ [] ∧ fromIndex < s.files.length) &&
      Session.movesAddressEntries fmt (s.step fmt (.moveTo fromIndex toIndex)) ops
  | s, op :: ops => Session.movesAddressEntries fmt (s.step fmt op) ops

/-! ## Facts about `splice` -/

section SpliceLemmas

variable {α : Type}

theorem actualStart_of_nonneg_lt (len : Nat) (i : Int) (h0 : 0 ≤ i) (h : i < len) :
    actualStart len i = i.toNat := by
  unfold actualStart
  have : ¬ i < 0 := by omega
  simp only [this, if_false]
  omega

theorem actualStart_of_nonneg_le (len : Nat) (i : Int) (h0 : 0 ≤ i) (h : i ≤ len) :
    actualStart len i = i.toNat := by
  unfold actualStart
  have : ¬ i < 0 := by omega
  simp only [this, if_false]
  omega

theorem actualStart_of_ge (len : Nat) (i : Int) (h : (len : Int) ≤ i) :
    actualStart len i = len := by
  unfold actualStart
  have : ¬ i < 0 := by omega
  simp only [this, if_false]
  omega

theorem actualStart_le (len : Nat) (i : Int) : actualStart len i ≤ len := by
  unfold actualStart
  split <;> omega

theorem actualStart_lt_of_lt (len : Nat) (i : Int) (hpos : 0 < len) (h : i < len) :
    actualStart len i < len := by
  unfold actualStart
  split <;> omega

theorem insertIdx_eq_take_drop (a : α) :
    ∀ (n : Nat) (l : List α), n ≤ l.length → l.insertIdx n a = l.take n ++ a :: l.drop n
  | 0, l, _ => by simp
  | n + 1, [], h => by simp at h
  | n + 1, x :: l, h => by
    have h2 : n ≤ l.length := by simpa using h
    simp [insertIdx_eq_take_drop a n l h2]

theorem insertIdx_getElem_eraseIdx :
    ∀ (n : Nat) (l : List α) (h : n < l.length), (l.eraseIdx n).insertIdx n (l.get ⟨n, h⟩) = l
  | 0, x :: l, _ => by simp
  | n + 1, x :: l, h => by
    have h2 : n < l.length := by simpa using h
    simpa using insertIdx_getElem_eraseIdx n l h2

/-- Deleting one element at a position that exists: the array loses that element and
`splice` returns it. -/
theorem splice_delete_one (xs : List α) (s : Nat) (start : Int) (hs : s < xs.length)
    (hstart : actualStart xs.length start = s) :
    splice xs start 1 [] = (xs.eraseIdx s, [xs.get ⟨s, hs⟩]) := by
  unfold splice actualDeleteCount
  simp only [hstart]
  have hd : min (1 : Int).toNat (xs.length - s) = 1 := by
    have : (1 : Int).toNat = 1 := rfl
    omega
  rw [hd]
  refine Prod.ext ?_ ?_
  · simp [List.eraseIdx_eq_take_drop_succ]
  · show List.take 1 (List.drop s xs) = [xs.get ⟨s, hs⟩]
    rw [List.drop_eq_getElem_cons hs]
    rfl

/-- Deleting at a position past the end deletes nothing. -/
theorem splice_delete_none (xs : List α) (start : Int)
    (hstart : actualStart xs.length start = xs.length) :
    splice xs start 1 [] = (xs, []) := by
  unfold splice actualDeleteCount
  simp [hstart]

/-- Inserting one element and deleting none. -/
theorem splice_insert_one (xs : List α) (a : α) (start : Int) :
    (splice xs start 0 [a]).1 = xs.insertIdx (actualStart xs.length start) a := by
  unfold splice actualDeleteCount
  rw [insertIdx_eq_take_drop a _ xs (actualStart_le _ _)]
  simp

/-- The move of an existing entry, in terms of list operations. -/
theorem reorderFiles_of_actualStart (files : List (Option α)) (fromIndex toIndex : Int)
    (s : Nat) (hs : s < files.length) (hstart : actualStart files.length fromIndex = s) :
    reorderFiles files fromIndex toIndex =
      (files.eraseIdx s).insertIdx (actualStart (files.length - 1) toIndex)
        (files.get ⟨s, hs⟩) := by
  unfold reorderFiles
  simp only [splice_delete_one files s fromIndex hs hstart, splice_insert_one,
    List.headD_cons, List.length_eraseIdx, hs, if_true]

/-- A move whose `fromIndex` is past the end inserts `undefined`. -/
theorem reorderFiles_of_ge (files : List (Option α)) (fromIndex toIndex : Int)
    (h : (files.length : Int) ≤ fromIndex) :
    reorderFiles files fromIndex toIndex =
      files.insertIdx (actualStart files.length toIndex) none := by
  unfold reorderFiles
  simp only [splice_delete_none files fromIndex (actualStart_of_ge _ _ h), splice_insert_one,
    List.headD_nil]

/-- A move with both indices in range, in terms of list operations on naturals. -/
theorem reorderFiles_in_range (files : List (Option α)) (fromIndex toIndex : Int)
    (hf0 : 0 ≤ fromIndex) (hf : fromIndex < files.length)
    (ht0 : 0 ≤ toIndex) (ht : toIndex < files.length)
    (hlt : fromIndex.toNat < files.length) :
    reorderFiles files fromIndex toIndex =
      (files.eraseIdx fromIndex.toNat).insertIdx toIndex.toNat
        (files.get ⟨fromIndex.toNat, hlt⟩) := by
  rw [reorderFiles_of_actualStart files fromIndex toIndex fromIndex.toNat hlt
    (actualStart_of_nonneg_lt _ _ hf0 hf)]
  rw [actualStart_of_nonneg_le (files.length - 1) toIndex ht0 (by omega)]

end SpliceLemmas

/-- A move with both indices in range: the result as an insertion into the shortened
list, its length, the entry at the target position, and the remaining entries. -/
theorem reorderFiles_in_range_facts {α : Type} (files : List (Option α))
    (fromIndex toIndex : Int)
    (hf0 : 0 ≤ fromIndex) (hf : fromIndex < files.length)
    (ht0 : 0 ≤ toIndex) (ht : toIndex < files.length) :
    reorderFiles files fromIndex toIndex =
        (files.eraseIdx fromIndex.toNat).insertIdx toIndex.toNat
          (files.getD fromIndex.toNat none) ∧
      (reorderFiles files fromIndex toIndex).length = files.length ∧
      (reorderFiles files fromIndex toIndex)[toIndex.toNat]? = files[fromIndex.toNat]? ∧
      (reorderFiles files fromIndex toIndex).eraseIdx toIndex.toNat =
        files.eraseIdx fromIndex.toNat := by
  have hlt : fromIndex.toNat < files.length := by omega
  have htl : toIndex.toNat ≤ (files.eraseIdx fromIndex.toNat).length := by
    rw [List.length_eraseIdx]
    simp only [hlt, if_true]
    omega
  have hget : files.getD fromIndex.toNat none = files.get ⟨fromIndex.toNat, hlt⟩ := by
    simp [List.getD_eq_getElem?_getD, List.getElem?_eq_getElem hlt]
  rw [reorderFiles_in_range files fromIndex toIndex hf0 hf ht0 ht hlt, hget]
  refine ⟨rfl, ?_, ?_, ?_⟩
  · rw [List.length_insertIdx _ _ htl, List.length_eraseIdx]
    simp only [hlt, if_true]
    omega
  · have hlen : toIndex.toNat <
        ((files.eraseIdx fromIndex.toNat).insertIdx toIndex.toNat
          (files.get ⟨fromIndex.toNat, hlt⟩)).length := by
      rw [List.length_insertIdx _ _ htl]
      omega
    rw [List.getElem?_eq_getElem hlen, List.getElem?_eq_getElem hlt,
      List.getElem_insertIdx_self _ _ _ htl]
    rfl
  · exact List.eraseIdx_insertIdx _ _

/-! ## Facts about the `handleFiles` loop -/

/-- While every PDF-type candidate can be read, the loop runs to its end and pushes,
in arrival order, one entry for each PDF-type candidate. -/
theorem handleFilesLoop_readable (fmt : Nat → String) (ids : Nat → Nat) :
    ∀ (batch : List File) (k : Nat) (files : List (Option FileData)) (pushed : Nat),
      (∀ f ∈ batch, f.type = "application/pdf" → f.arrayBuffer ≠ none) →
      ∃ added : List FileData,
        handleFilesLoop fmt ids k files pushed batch =
          ⟨files ++ added.map some, pushed + added.length, true⟩ ∧
        added.map FileData.file = batch.filter (fun f => decide (f.type = "application/pdf")) ∧
        ∀ d ∈ added, d.name = d.file.name ∧ d.size = fmt d.file.size ∧
          d.file.arrayBuffer = some d.arrayBuffer
  | [], k, files, pushed, _ => ⟨[], by simp [handleFilesLoop], rfl, by simp⟩
  | file :: rest, k, files, pushed, h => by
    have hrest : ∀ f ∈ rest, f.type = "application/pdf" → f.arrayBuffer ≠ none :=
      fun f hf => h f (List.mem_cons_of_mem _ hf)
    by_cases ht : file.type = "application/pdf"
    · cases hbuf : file.arrayBuffer with
      | none => exact absurd hbuf (h file (List.mem_cons_self _ _) ht)
      | some buf =>
        obtain ⟨added, hrun, hfile, hfields⟩ :=
          handleFilesLoop_readable fmt ids rest (k + 1)
            (files ++ [some ⟨ids k, file, file.name, fmt file.size, buf⟩]) (pushed + 1) hrest
        refine ⟨⟨ids k, file, file.name, fmt file.size, buf⟩ :: added, ?_, ?_, ?_⟩
        · simp only [handleFilesLoop, ht, if_true, hbuf, hrun, List.map_cons, List.length_cons,
            List.append_assoc, List.singleton_append]
          congr 1
          omega
        · simp [List.filter_cons, ht, hfile]
        · intro d hd
          rcases List.mem_cons.1 hd with rfl | hd
          · exact ⟨rfl, rfl, hbuf⟩
          · exact hfields d hd
    · obtain ⟨added, hrun, hfile, hfields⟩ :=
        handleFilesLoop_readable fmt ids rest (k + 1) files pushed hrest
      refine ⟨added, ?_, ?_, hfields⟩
      · simp only [handleFilesLoop, ht, if_false, hrun]
      · simp [List.filter_cons, ht, hfile]

/-- A PDF-type candidate whose read is rejected ends the loop: the candidates before it
have been handled, it and the candidates after it are not. -/
theorem handleFilesLoop_rejected (fmt : Nat → String) (ids : Nat → Nat) (bad : File)
    (post : List File) (hbad : bad.type = "application/pdf") (hread : bad.arrayBuffer = none) :
    ∀ (pre : List File) (k : Nat) (files : List (Option FileData)) (pushed : Nat),
      (∀ f ∈ pre, f.type = "application/pdf" → f.arrayBuffer ≠ none) →
      handleFilesLoop fmt ids k files pushed (pre ++ bad :: post) =
        ⟨(handleFilesLoop fmt ids k files pushed pre).files,
          (handleFilesLoop fmt ids k files pushed pre).pushed, false⟩
  | [], k, files, pushed, _ => by simp [handleFilesLoop, hbad, hread]
  | file :: rest, k, files, pushed, h => by
    have hrest : ∀ f ∈ rest, f.type = "application/pdf" → f.arrayBuffer ≠ none :=
      fun f hf => h f (List.mem_cons_of_mem _ hf)
    by_cases ht : file.type = "application/pdf"
    · cases hbuf : file.arrayBuffer with
      | none => exact absurd hbuf (h file (List.mem_cons_self _ _) ht)
      | some buf =>
        simp only [List.cons_append, handleFilesLoop, ht, if_true, hbuf]
        exact handleFilesLoop_rejected fmt ids bad post hbad hread rest _ _ _ hrest
    · simp only [List.cons_append, handleFilesLoop, ht, if_false]
      exact handleFilesLoop_rejected fmt ids bad post hbad hread rest _ _ _ hrest

/-- The loop grows `this.files` by exactly the number of its `push` calls, whether or
not it runs to its end. -/
theorem handleFilesLoop_length (fmt : Nat → String) (ids : Nat → Nat) :
    ∀ (batch : List File) (k : Nat) (files : List (Option FileData)) (pushed : Nat),
      (handleFilesLoop fmt ids k files pushed batch).files.length + pushed =
        files.length + (handleFilesLoop fmt ids k files pushed batch).pushed
  | [], k, files, pushed => by simp [handleFilesLoop]
  | file :: rest, k, files, pushed => by
    by_cases ht : file.type = "application/pdf"
    · cases hbuf : file.arrayBuffer with
      | none => simp [handleFilesLoop, ht, hbuf]
      | some buf =>
        have ih := handleFilesLoop_length fmt ids rest (k + 1)
          (files ++ [some ⟨ids k, file, file.name, fmt file.size, buf⟩]) (pushed + 1)
        simp only [handleFilesLoop, ht, if_true, hbuf]
        simp only [List.length_append, List.length_singleton] at ih
        omega
    · have ih := handleFilesLoop_length fmt ids rest (k + 1) files pushed
      simp only [handleFilesLoop, ht, if_false]
      exact ih

/-! ## Facts about sizes -/

/-- The entries `splice(index, 1)` keeps and the entries it returns make up the array. -/
theorem removeFile_length {α : Type} (files : List (Option α)) (index : Int) :
    (removeFile files index).1.length + (removeFile files index).2.length = files.length := by
  have hs := actualStart_le files.length index
  simp only [removeFile, splice, actualDeleteCount, List.append_nil, List.length_append,
    List.length_take, List.length_drop]
  omega

/-- A move whose `fromIndex` addresses an entry keeps the length. -/
theorem reorderFiles_length {α : Type} (files : List (Option α)) (fromIndex toIndex : Int)
    (hne : files ≠ []) (h : fromIndex < files.length) :
    (reorderFiles files fromIndex toIndex).length = files.length := by
  have hpos : 0 < files.length := List.length_pos.2 hne
  have hs := actualStart_lt_of_lt files.length fromIndex hpos h
  rw [reorderFiles_of_actualStart files fromIndex toIndex _ hs rfl]
  have hto := actualStart_le (files.length - 1) toIndex
  rw [List.length_insertIdx _ _ (by rw [List.length_eraseIdx]; simp only [hs, if_true]; exact hto),
    List.length_eraseIdx]
  simp only [hs, if_true]
  omega

/-- One operation keeps `size + removed = accepted`, provided a `moveTo` addresses an
entry. -/
theorem Session.step_balance (fmt : Nat → String) (s : Session) (op : Op)
    (hop : Session.movesAddressEntries fmt s [op] = true)
    (h : s.size + s.removed = s.accepted) :
    (s.step fmt op).size + (s.step fmt op).removed = (s.step fmt op).accepted := by
  cases op with
  | add batch ids =>
    have hl := handleFilesLoop_length fmt ids batch 0 s.files 0
    simp only [Session.step, Session.size, handleFiles] at h ⊢
    omega
  | removeAt index =>
    have hl := removeFile_length s.files index
    simp only [Session.step, Session.size] at h ⊢
    omega
  | moveTo fromIndex toIndex =>
    simp only [Session.movesAddressEntries, Bool.and_true, decide_eq_true_eq] at hop
    have hl := reorderFiles_length s.files fromIndex toIndex hop.1 hop.2
    simp only [Session.step, Session.size] at h ⊢
    omega

/-- The balance `size + removed = accepted` is kept along a sequence of operations whose
moves address entries. -/
theorem Session.run_balance (fmt : Nat → String) :
    ∀ (ops : List Op) (s : Session), Session.movesAddressEntries fmt s ops = true →
      s.size + s.removed = s.accepted →
      (s.run fmt ops).size + (s.run fmt ops).removed = (s.run fmt ops).accepted
  | [], _, _, h => h
  | op :: ops, s, hops, h => by
    have hop : Session.movesAddressEntries fmt s [op] = true ∧
        Session.movesAddressEntries fmt (s.step fmt op) ops = true := by
      cases op <;> simp_all [Session.movesAddressEntries]
    have hstep := Session.step_balance fmt s op hop.1 h
    exact Session.run_balance fmt ops (s.step fmt op) hop.2 hstep

/-! ## Facts about the merge loop -/

/-- Copying the pages at all the indices of a document yields its pages, in order. -/
theorem copyPages_getPageIndices {Page : Type} :
    ∀ pdf : List Page, copyPages pdf (getPageIndices pdf) = pdf
  | [] => rfl
  | page :: pdf => by
    have ih := copyPages_getPageIndices pdf
    simp only [copyPages, getPageIndices] at ih ⊢
    simp only [List.length_cons, List.range_succ_eq_map, List.filterMap_cons,
      List.getElem?_cons_zero, List.filterMap_map]
    simpa [Function.comp_def] using ih

/-- Adding pages one by one appends them, in order. -/
theorem foldl_addPage {Page : Type} :
    ∀ (pages mergedPdf : List Page), pages.foldl addPage mergedPdf = mergedPdf ++ pages
  | [], mergedPdf => by simp
  | page :: pages, mergedPdf => by
    simp [List.foldl_cons, foldl_addPage pages, addPage]

/-- When every entry is defined and its buffer loads, the loop ends normally with the
merged document extended by the pages of the documents, in collection order. -/
theorem mergeLoop_ok {Page : Type} (lib : PDFLib Page) :
    ∀ (files : List (Option FileData)) (docs : List (List Page)) (mergedPdf : List Page)
      (tr : List (Effect Page)),
      List.Forall₂ (fun entry doc =>
        ∃ fileData, entry = some fileData ∧ lib.load fileData.arrayBuffer = some doc) files docs →
      ∃ calls : List (Effect Page),
        mergeLoop lib files mergedPdf tr = .ok (mergedPdf ++ docs.flatten, tr ++ calls) ∧
        calls.all Effect.isLibraryCall = true
  | [], _, mergedPdf, tr, h => by
    cases h
    exact ⟨[], by simp [mergeLoop], rfl⟩
  | entry :: files, _, mergedPdf, tr, h => by
    cases h with
    | cons hentry hrest =>
      rename_i doc docs
      obtain ⟨fileData, rfl, hload⟩ := hentry
      obtain ⟨calls, hrun, hcalls⟩ := mergeLoop_ok lib files docs (mergedPdf ++ doc)
        (tr ++ [.load fileData.arrayBuffer, .copyPages (getPageIndices doc)] ++
          doc.map .addPage) hrest
      refine ⟨[.load fileData.arrayBuffer, .copyPages (getPageIndices doc)] ++
        doc.map .addPage ++ calls, ?_, ?_⟩
      · simp only [mergeLoop, hload, copyPages_getPageIndices, foldl_addPage]
        simpa [List.append_assoc] using hrun
      · simp [List.all_append, hcalls, Effect.isLibraryCall, Function.comp_def]

/-! ## Facts about `trim` -/

/-- The string is its trimmed part between a run of strippable characters on each side. -/
theorem trim_decomposition (s : List Char) :
    s = s.takeWhile isTrimChar ++ trim s ++
      ((s.dropWhile isTrimChar).reverse.takeWhile isTrimChar).reverse := by
  have h1 := List.takeWhile_append_dropWhile isTrimChar s
  have h2 := List.takeWhile_append_dropWhile isTrimChar (s.dropWhile isTrimChar).reverse
  have h3 : s.dropWhile isTrimChar = trim s ++
      ((s.dropWhile isTrimChar).reverse.takeWhile isTrimChar).reverse := by
    have := congrArg List.reverse h2
    rw [List.reverse_append, List.reverse_reverse] at this
    exact this.symm
  rw [List.append_assoc, ← h3, h1]

/-- The trimmed string does not start with a strippable character. -/
theorem trim_head (s : List Char) (c : Char) (h : (trim s).head? = some c) :
    isTrimChar c = false := by
  have hd := trim_decomposition s
  have h3 : s.dropWhile isTrimChar = trim s ++
      ((s.dropWhile isTrimChar).reverse.takeWhile isTrimChar).reverse := by
    have h2 := List.takeWhile_append_dropWhile isTrimChar (s.dropWhile isTrimChar).reverse
    have := congrArg List.reverse h2
    rw [List.reverse_append, List.reverse_reverse] at this
    exact this.symm
  have hh : (s.dropWhile isTrimChar).head? = some c := by
    rw [h3]
    cases ht : trim s with
    | nil => rw [ht] at h; simp at h
    | cons a l => rw [ht] at h; simpa using h
  have := List.head?_dropWhile_not isTrimChar s
  rw [hh] at this
  exact this

/-- The trimmed string does not end with a strippable character. -/
theorem trim_getLast (s : List Char) (c : Char) (h : (trim s).getLast? = some c) :
    isTrimChar c = false := by
  rw [trim, List.getLast?_reverse] at h
  have := List.head?_dropWhile_not isTrimChar (s.dropWhile isTrimChar).reverse
  rw [h] at this
  exact this

/-- The trimmed string is empty exactly when every character is strippable. -/
theorem trim_eq_nil_iff (s : List Char) : trim s = [] ↔ s.all isTrimChar = true := by
  rw [List.all_eq_true, ← List.dropWhile_eq_nil_iff]
  constructor
  · intro h
    rw [trim, List.reverse_eq_nil_iff, List.dropWhile_eq_nil_iff] at h
    cases hm : s.dropWhile isTrimChar with
    | nil => rfl
    | cons a l =>
      exfalso
      have hnot := List.head?_dropWhile_not isTrimChar s
      rw [hm] at hnot h
      have := h a (by simp)
      simp only [List.head?_cons] at hnot
      rw [this] at hnot
      exact Bool.noConfusion hnot
  · intro h
    simp [trim, h]

/-- The name of the download: `"merged-document.pdf"` for a blank value, the trimmed
value followed by `".pdf"` otherwise. -/
theorem outputFilename_eq (value : String) :
    outputFilename value =
      if value.data.all isTrimChar = true then "merged-document.pdf"
      else String.mk (trim value.data ++ ".pdf".data) := by
  unfold outputFilename
  by_cases h : value.data.all isTrimChar = true
  · have ht := (trim_eq_nil_iff value.data).2 h
    simp only [ht, h, if_true]
    rfl
  · have ht : ¬ trim value.data = [] := fun hc => h ((trim_eq_nil_iff value.data).1 hc)
    simp [ht, h]

/-! ## The claims -/

section Claims

variable {α : Type}

/-- C1: for indices `0 ≤ fromIndex < length` and `0 ≤ toIndex < length`, `reorderFiles`
yields the list obtained by removing the entry at `fromIndex` and inserting it at
position `toIndex` of the shortened list; the length is unchanged, the entry at
`toIndex` of the result is the entry that was at `fromIndex`, and removing it again
leaves the other entries exactly as the original list without the moved entry, so
they keep their relative order. -/
theorem reorderFiles_removes_then_inserts (files : List (Option α))
    (fromIndex toIndex : Int)
    (hf0 : 0 ≤ fromIndex) (hf : fromIndex < files.length)
    (ht0 : 0 ≤ toIndex) (ht : toIndex < files.length) :
    reorderFiles files fromIndex toIndex =
        (files.eraseIdx fromIndex.toNat).insertIdx toIndex.toNat
          (files.getD fromIndex.toNat none) ∧
      (reorderFiles files fromIndex toIndex).length = files.length ∧
      (reorderFiles files fromIndex toIndex)[toIndex.toNat]? = files[fromIndex.toNat]? ∧
      (reorderFiles files fromIndex toIndex).eraseIdx toIndex.toNat =
        files.eraseIdx fromIndex.toNat :=
  reorderFiles_in_range_facts files fromIndex toIndex hf0 hf ht0 ht

/-- Witness for C1: `[A, B, C]` with `fromIndex = 0`, `toIndex = 2`. -/
theorem reorderFiles_removes_then_inserts_witness :
    reorderFiles [some "A", some "B", some "C"] 0 2 = [some "B", some "C", some "A"] ∧
      (reorderFiles [some "A", some "B", some "C"] 0 2).length = 3 := by
  have h := reorderFiles_removes_then_inserts [some "A", some "B", some "C"] 0 2
    (by decide) (by decide) (by decide) (by decide)
  exact ⟨h.1, h.2.1⟩

/-- C2: for indices `i ≠ j`, both in range, `reorderFiles(i, j)` followed by
`reorderFiles(j, i)` restores the original order (the proof does not use `i ≠ j`:
for `i = j` each of the two calls already restores the list). -/
theorem reorderFiles_there_and_back (files : List (Option α)) (i j : Int)
    (hi0 : 0 ≤ i) (hi : i < files.length) (hj0 : 0 ≤ j) (hj : j < files.length)
    (_hij : i ≠ j) :
    reorderFiles (reorderFiles files i j) j i = files := by
  obtain ⟨_, hlen, hget, hrest⟩ := reorderFiles_in_range_facts files i j hi0 hi hj0 hj
  have hilt : i.toNat < files.length := by omega
  have hjlt : j.toNat < (reorderFiles files i j).length := by omega
  rw [reorderFiles_in_range (reorderFiles files i j) j i hj0 (by omega) hi0 (by omega) hjlt,
    hrest]
  have hx : (reorderFiles files i j).get ⟨j.toNat, hjlt⟩ = files.get ⟨i.toNat, hilt⟩ := by
    have h1 := hget
    rw [List.getElem?_eq_getElem hjlt, List.getElem?_eq_getElem hilt] at h1
    exact Option.some.inj h1
  rw [hx]
  exact insertIdx_getElem_eraseIdx _ _ hilt

/-- Witness for C2: `[A, B, C]` becomes `[B, C, A]` after `reorderFiles(0, 2)` and
`[A, B, C]` again after `reorderFiles(2, 0)`. -/
theorem reorderFiles_there_and_back_witness :
    reorderFiles [some "A", some "B", some "C"] 0 2 = [some "B", some "C", some "A"] ∧
      reorderFiles (reorderFiles [some "A", some "B", some "C"] 0 2) 2 0 =
        [some "A", some "B", some "C"] :=
  ⟨by decide, reorderFiles_there_and_back [some "A", some "B", some "C"] 0 2
    (by decide) (by decide) (by decide) (by decide) (by decide)⟩

/-- C5, as stated, fails: the index `-1` is outside `[0, length)`, and `removeFile(-1)`
on `[A, B]` deletes `B` (a negative `start` of `splice` counts from the end). -/
theorem removeFile_negative_index_deletes :
    (-1 : Int) < 0 ∧
      (removeFile [some "A", some "B"] (-1)).1 = [some "A"] ∧
      (removeFile [some "A", some "B"] (-1)).1 ≠ [some "A", some "B"] := by
  decide

/-- C5, amended: for every index at or past the end (`length ≤ index`), and for every
index on an empty collection, `removeFile` leaves the sequence unchanged and deletes
nothing. -/
theorem removeFile_past_end_unchanged (files : List (Option α)) (index : Int)
    (h : (files.length : Int) ≤ index ∨ files = []) :
    removeFile files index = (files, []) := by
  unfold removeFile
  apply splice_delete_none
  rcases h with h | h
  · exact actualStart_of_ge _ _ h
  · subst h
    have := actualStart_le 0 index
    simpa using this

/-- Witness for C5 amended: index `2` on `[A, B]`. -/
theorem removeFile_past_end_unchanged_witness :
    removeFile [some "A", some "B"] 2 = ([some "A", some "B"], []) :=
  removeFile_past_end_unchanged [some "A", some "B"] 2 (Or.inl (by decide))

/-- C10, as stated, fails: on the one-entry collection `[A]`, `reorderFiles(1, 0)`
deletes nothing, so `movedFile` is `undefined`, and inserts it: the collection
becomes `[undefined, A]`. The drop handler passes the same indices on. -/
theorem reorderFiles_single_out_of_range :
    reorderFiles [some "A"] 1 0 = [none, some "A"] ∧
      reorderFiles [some "A"] 1 0 ≠ [some "A"] ∧
      handleItemDrop [some "A"] 1 0 = [none, some "A"] := by
  decide

/-- C10, amended: for every one-entry collection, every `fromIndex ≤ 0` (the index 0,
or a negative index, which `splice` resolves to position 0) and every `toIndex`,
`reorderFiles` leaves the same one-entry sequence, and so does the drop handler. -/
theorem reorderFiles_single_noop (x : Option α) (fromIndex toIndex : Int)
    (h : fromIndex ≤ 0) :
    reorderFiles [x] fromIndex toIndex = [x] ∧
      handleItemDrop [x] fromIndex toIndex = [x] := by
  have hstart : actualStart [x].length fromIndex = 0 := by
    unfold actualStart
    simp only [List.length_singleton]
    split <;> omega
  have hto : actualStart ([x].length - 1) toIndex = 0 := by
    have := actualStart_le 0 toIndex
    simpa using this
  have hmove : reorderFiles [x] fromIndex toIndex = [x] := by
    rw [reorderFiles_of_actualStart [x] fromIndex toIndex 0 (by simp) hstart, hto]
    rfl
  refine ⟨hmove, ?_⟩
  unfold handleItemDrop
  split
  · exact hmove
  · rfl

/-- Witness for C10 amended: `[A]` with `fromIndex = -3`, `toIndex = 7`. -/
theorem reorderFiles_single_noop_witness :
    reorderFiles [some "A"] (-3) 7 = [some "A"] ∧
      handleItemDrop [some "A"] (-3) 7 = [some "A"] :=
  reorderFiles_single_noop (some "A") (-3) 7 (by decide)

/-- C7: on a one-entry collection `removeFile(0)` yields the empty collection; a
following `mergePDFs` shows the empty-collection warning and does nothing else (no
`create`, `load`, `copyPages`, `addPage`, `save`, no download), and the collection
is still empty. -/
theorem removeFile_last_then_merge_warns {Page : Type} (lib : PDFLib Page)
    (x : Option FileData) (outputName : String) :
    (removeFile [x] 0).1 = [] ∧
      (mergePDFs lib (removeFile [x] 0).1 outputName).trace =
        [Effect.alert "Please upload at least one PDF file."] ∧
      (mergePDFs lib (removeFile [x] 0).1 outputName).files = [] := by
  have h : (removeFile [x] 0).1 = [] := by
    rw [removeFile, splice_delete_one [x] 0 0 (by simp) (actualStart_of_nonneg_lt _ _ (by omega) (by simp))]
    rfl
  rw [h]
  exact ⟨rfl, rfl, rfl⟩

/-- C4: when every candidate of the batch can be read, `handleFiles` leaves the
existing entries where they are and appends, in arrival order, exactly one entry for
each candidate whose `type` is `"application/pdf"` (each entry holding its candidate,
its name, its formatted size and its bytes); the other candidates are ignored. In
particular the collection grows by the number of PDF-type candidates, and an empty
batch leaves it as it was. The method then runs to its end exactly when no existing
slot holds `undefined` (otherwise the rendering that follows the loop throws, after
the entries have been appended). -/
theorem handleFiles_appends_pdfs (fmt : Nat → String) (ids : Nat → Nat)
    (files : List (Option FileData)) (batch : List File)
    (hread : ∀ f ∈ batch, f.arrayBuffer ≠ none) :
    ∃ added : List FileData,
      handleFiles fmt ids files batch =
        ⟨files ++ added.map some, added.length, files.all Option.isSome⟩ ∧
      added.map FileData.file = batch.filter (fun f => decide (f.type = "application/pdf")) ∧
      (∀ d ∈ added, d.name = d.file.name ∧ d.size = fmt d.file.size ∧
        d.file.arrayBuffer = some d.arrayBuffer) ∧
      (handleFiles fmt ids files batch).files.length =
        files.length + (batch.filter (fun f => decide (f.type = "application/pdf"))).length ∧
      (handleFiles fmt ids files []).files = files := by
  obtain ⟨added, hrun, hfile, hfields⟩ :=
    handleFilesLoop_readable fmt ids batch 0 files 0 (fun f hf _ => hread f hf)
  have hall : (files ++ added.map some).all Option.isSome = files.all Option.isSome := by
    rw [List.all_append]
    have : (added.map some).all Option.isSome = true := by
      simp [List.all_eq_true]
    rw [this, Bool.and_true]
  refine ⟨added, ?_, hfile, hfields, ?_, rfl⟩
  · simp only [handleFiles, hrun, renderFilesList, Bool.true_and, Nat.zero_add, hall]
  · simp only [handleFiles, hrun, List.length_append, List.length_map, ← hfile]

/-- Witness for C4: two PDF-type candidates around one text candidate, added to an
empty collection: the collection holds the two PDF candidates, in their order, and the
method runs to its end; an empty batch leaves a one-entry collection as it was. -/
theorem handleFiles_appends_pdfs_witness :
    (handleFiles (fun _ => "1 KB") id []
        [⟨"application/pdf", "a.pdf", 1024, some [1]⟩, ⟨"text/plain", "b.txt", 1024, some [2]⟩,
          ⟨"application/pdf", "c.pdf", 1024, some [3]⟩]).files.length = 0 + 2 ∧
      (handleFiles (fun _ => "1 KB") id []
        [⟨"application/pdf", "a.pdf", 1024, some [1]⟩, ⟨"text/plain", "b.txt", 1024, some [2]⟩,
          ⟨"application/pdf", "c.pdf", 1024, some [3]⟩]).files.map (Option.map FileData.name) =
        [some "a.pdf", some "c.pdf"] ∧
      (handleFiles (fun _ => "1 KB") id []
        [⟨"application/pdf", "a.pdf", 1024, some [1]⟩, ⟨"text/plain", "b.txt", 1024, some [2]⟩,
          ⟨"application/pdf", "c.pdf", 1024, some [3]⟩]).completed = true ∧
      (handleFiles (fun _ => "1 KB") id [some ⟨7, ⟨"application/pdf", "z.pdf", 0, some []⟩,
        "z.pdf", "0 Bytes", []⟩] []).files.length = 1 := by
  obtain ⟨_, _, _, _, hlen, _⟩ := handleFiles_appends_pdfs (fun _ => "1 KB") id []
    [⟨"application/pdf", "a.pdf", 1024, some [1]⟩, ⟨"text/plain", "b.txt", 1024, some [2]⟩,
      ⟨"application/pdf", "c.pdf", 1024, some [3]⟩] (by decide)
  exact ⟨hlen, by decide, by decide, by decide⟩

/-- C6, as stated, fails: in the batch `a.pdf, b.pdf, c.pdf` where the read of `b.pdf`
is rejected, only `a.pdf` is appended: `c.pdf`, which comes after the failing
candidate, is not, and the method does not run to its end. -/
theorem handleFiles_stops_at_rejected_read :
    (handleFiles (fun _ => "1 KB") id []
        [⟨"application/pdf", "a.pdf", 1024, some [1]⟩, ⟨"application/pdf", "b.pdf", 1024, none⟩,
          ⟨"application/pdf", "c.pdf", 1024, some [3]⟩]).files.map (Option.map FileData.name) =
        [some "a.pdf"] ∧
      (handleFiles (fun _ => "1 KB") id []
        [⟨"application/pdf", "a.pdf", 1024, some [1]⟩, ⟨"application/pdf", "b.pdf", 1024, none⟩,
          ⟨"application/pdf", "c.pdf", 1024, some [3]⟩]).files.map (Option.map FileData.name) ≠
        [some "a.pdf", some "c.pdf"] ∧
      (handleFiles (fun _ => "1 KB") id []
        [⟨"application/pdf", "a.pdf", 1024, some [1]⟩, ⟨"application/pdf", "b.pdf", 1024, none⟩,
          ⟨"application/pdf", "c.pdf", 1024, some [3]⟩]).completed = false := by
  decide

/-- C6, amended: when the batch is `pre ++ bad :: post`, where `bad` is a PDF-type
candidate whose read is rejected and every PDF-type candidate of `pre` can be read,
`handleFiles` appends, in arrival order, one entry for each PDF-type candidate of `pre`
and nothing else: `bad` is not appended, and the rejected read ends the method, so the
candidates of `post` are not processed. -/
theorem handleFiles_rejected_read (fmt : Nat → String) (ids : Nat → Nat)
    (files : List (Option FileData)) (pre post : List File) (bad : File)
    (hbad : bad.type = "application/pdf") (hread : bad.arrayBuffer = none)
    (hpre : ∀ f ∈ pre, f.type = "application/pdf" → f.arrayBuffer ≠ none) :
    ∃ added : List FileData,
      handleFiles fmt ids files (pre ++ bad :: post) =
        ⟨files ++ added.map some, added.length, false⟩ ∧
      added.map FileData.file = pre.filter (fun f => decide (f.type = "application/pdf")) ∧
      ∀ d ∈ added, d.name = d.file.name ∧ d.size = fmt d.file.size ∧
        d.file.arrayBuffer = some d.arrayBuffer := by
  obtain ⟨added, hrun, hfile, hfields⟩ := handleFilesLoop_readable fmt ids pre 0 files 0 hpre
  refine ⟨added, ?_, hfile, hfields⟩
  rw [handleFiles, handleFilesLoop_rejected fmt ids bad post hbad hread pre 0 files 0 hpre, hrun]
  simp

/-- Witness for C6 amended: `a.pdf` readable, `b.pdf` rejected, `c.pdf` never reached. -/
theorem handleFiles_rejected_read_witness :
    ∃ added : List FileData,
      handleFiles (fun _ => "1 KB") id []
          ([⟨"application/pdf", "a.pdf", 1024, some [1]⟩] ++
            ⟨"application/pdf", "b.pdf", 1024, none⟩ ::
              [⟨"application/pdf", "c.pdf", 1024, some [3]⟩]) =
        ⟨[] ++ added.map some, added.length, false⟩ ∧
      added.map FileData.file = [⟨"application/pdf", "a.pdf", 1024, some [1]⟩] := by
  obtain ⟨added, hrun, hfile, _⟩ := handleFiles_rejected_read (fun _ => "1 KB") id []
    [⟨"application/pdf", "a.pdf", 1024, some [1]⟩] [⟨"application/pdf", "c.pdf", 1024, some [3]⟩]
    ⟨"application/pdf", "b.pdf", 1024, none⟩ rfl rfl (by decide)
  exact ⟨added, hrun, hfile⟩

/-- C3, as stated, fails: after one accepted add the collection is `[a.pdf]`; then
`reorderFiles(1, 0)` finds no entry at index 1 to delete and inserts `undefined`. With
one add accepted and no remove, `size()` is 2. -/
theorem moveTo_out_of_range_grows :
    (Session.run (fun _ => "1 KB") Session.init
        [Op.add [⟨"application/pdf", "a.pdf", 1024, some [1]⟩] id, Op.moveTo 1 0]).size = 2 ∧
      (Session.run (fun _ => "1 KB") Session.init
        [Op.add [⟨"application/pdf", "a.pdf", 1024, some [1]⟩] id, Op.moveTo 1 0]).accepted = 1 ∧
      (Session.run (fun _ => "1 KB") Session.init
        [Op.add [⟨"application/pdf", "a.pdf", 1024, some [1]⟩] id, Op.moveTo 1 0]).removed = 0 ∧
      (Session.run (fun _ => "1 KB") Session.init
        [Op.add [⟨"application/pdf", "a.pdf", 1024, some [1]⟩] id, Op.moveTo 1 0]).files.head? =
        some none := by
  decide

/-- C3, amended: for every finite sequence of add, removeAt and moveTo operations
applied to the empty collection in which every `moveTo` is issued on a non-empty
collection with `fromIndex` below the current length, `size()` afterwards is the number
of entries the adds pushed minus the number of entries the removes deleted. -/
theorem size_is_accepted_minus_removed (fmt : Nat → String) (ops : List Op)
    (hmoves : Session.movesAddressEntries fmt Session.init ops = true) :
    (Session.run fmt Session.init ops).size =
        (Session.run fmt Session.init ops).accepted -
          (Session.run fmt Session.init ops).removed ∧
      (Session.run fmt Session.init ops).removed ≤
        (Session.run fmt Session.init ops).accepted := by
  have h := Session.run_balance fmt ops Session.init hmoves rfl
  omega

/-- Witness for C3 amended: add `a.pdf`, `b.txt`, `c.pdf`; move entry 0 to 1; remove
at 5 (nothing to delete), at -1 (deletes the last) and at 0: one entry is left. -/
theorem size_is_accepted_minus_removed_witness :
    (Session.run (fun _ => "1 KB") Session.init
        [Op.add [⟨"application/pdf", "a.pdf", 1024, some [1]⟩, ⟨"text/plain", "b.txt", 1024, some [2]⟩,
          ⟨"application/pdf", "c.pdf", 1024, some [3]⟩] id,
          Op.moveTo 0 1, Op.removeAt 5, Op.removeAt (-1), Op.removeAt 0,
          Op.add [⟨"application/pdf", "d.pdf", 1024, some [4]⟩] id]).size = 3 - 2 := by
  have h := size_is_accepted_minus_removed (fun _ => "1 KB")
    [Op.add [⟨"application/pdf", "a.pdf", 1024, some [1]⟩, ⟨"text/plain", "b.txt", 1024, some [2]⟩,
      ⟨"application/pdf", "c.pdf", 1024, some [3]⟩] id,
      Op.moveTo 0 1, Op.removeAt 5, Op.removeAt (-1), Op.removeAt 0,
      Op.add [⟨"application/pdf", "d.pdf", 1024, some [4]⟩] id] (by decide)
  exact h.1

/-- C8: for a non-empty collection whose entries are all defined and whose buffers all
load (entry `i` loads as the page list `docs[i]`), `mergePDFs` creates a document,
makes library calls only, saves and downloads a document whose page list is the
concatenation of the page lists `docs` in collection order; its page count is the sum
of the page counts, and the collection is left as it was. -/
theorem mergePDFs_concatenates_pages {Page : Type} (lib : PDFLib Page)
    (files : List (Option FileData)) (docs : List (List Page)) (outputName : String)
    (hne : files ≠ [])
    (hload : List.Forall₂ (fun entry doc =>
      ∃ fileData, entry = some fileData ∧ lib.load fileData.arrayBuffer = some doc) files docs) :
    ∃ calls : List (Effect Page),
      (mergePDFs lib files outputName).trace =
        [.showLoading, .create] ++ calls ++
          [.save, .download docs.flatten (outputFilename outputName), .hideLoading] ∧
      calls.all Effect.isLibraryCall = true ∧
      docs.flatten.length = (docs.map List.length).sum ∧
      (mergePDFs lib files outputName).files = files := by
  obtain ⟨calls, hrun, hcalls⟩ := mergeLoop_ok lib files docs [] [.showLoading, .create] hload
  have hlen : ¬ files.length = 0 := fun h => hne (List.length_eq_zero.1 h)
  refine ⟨calls, ?_, hcalls, List.length_flatten docs, ?_⟩
  · simp only [mergePDFs, hlen, if_false, hrun, List.nil_append]
  · simp only [mergePDFs, hlen, if_false, hrun]

/-- Witness for C8: `docA` with pages `A1, A2`, then `docB` with pages `B1, B2, B3`: the
downloaded document has the 5 pages `A1, A2, B1, B2, B3`. -/
theorem mergePDFs_concatenates_pages_witness :
    ∃ calls : List (Effect String),
      (mergePDFs
          ⟨fun buffer => if buffer = [1] then some ["A1", "A2"]
            else if buffer = [2] then some ["B1", "B2", "B3"] else none⟩
          [some ⟨1, ⟨"application/pdf", "docA.pdf", 1, some [1]⟩, "docA.pdf", "1 Bytes", [1]⟩,
            some ⟨2, ⟨"application/pdf", "docB.pdf", 1, some [2]⟩, "docB.pdf", "1 Bytes", [2]⟩]
          "report").trace =
        [.showLoading, .create] ++ calls ++
          [.save, .download ["A1", "A2", "B1", "B2", "B3"] "report.pdf", .hideLoading] ∧
      ["A1", "A2", "B1", "B2", "B3"].length = 5 := by
  obtain ⟨calls, htrace, _, _, _⟩ := mergePDFs_concatenates_pages
    (⟨fun buffer => if buffer = [1] then some ["A1", "A2"]
      else if buffer = [2] then some ["B1", "B2", "B3"] else none⟩ : PDFLib String)
    [some ⟨1, ⟨"application/pdf", "docA.pdf", 1, some [1]⟩, "docA.pdf", "1 Bytes", [1]⟩,
      some ⟨2, ⟨"application/pdf", "docB.pdf", 1, some [2]⟩, "docB.pdf", "1 Bytes", [2]⟩]
    [["A1", "A2"], ["B1", "B2", "B3"]] "report" (by simp)
    (List.Forall₂.cons ⟨_, rfl, by decide⟩ (List.Forall₂.cons ⟨_, rfl, by decide⟩ List.Forall₂.nil))
  exact ⟨calls, htrace, rfl⟩

/-- C9: when the merge of a non-empty collection succeeds (the loop ends normally with
document `doc`), the download of `doc` is named after the value of the name field: the
value with the leading and the trailing run of whitespace removed, followed by
`".pdf"`, when some character of the value is not whitespace, and
`"merged-document.pdf"` when the value is blank (empty or whitespace only). -/
theorem mergePDFs_download_filename {Page : Type} (lib : PDFLib Page)
    (files : List (Option FileData)) (value : String) (doc : List Page)
    (tr : List (Effect Page)) (hne : files ≠ [])
    (hok : mergeLoop lib files [] [.showLoading, .create] = .ok (doc, tr)) :
    (mergePDFs lib files value).trace =
        tr ++ [.save, .download doc (outputFilename value), .hideLoading] ∧
      outputFilename value =
        (if value.data.all isTrimChar = true then "merged-document.pdf"
          else String.mk (trim value.data ++ ".pdf".data)) ∧
      (∃ leading trailing : List Char,
        value.data = leading ++ trim value.data ++ trailing ∧
          leading.all isTrimChar = true ∧ trailing.all isTrimChar = true) ∧
      (∀ c, (trim value.data).head? = some c → isTrimChar c = false) ∧
      (∀ c, (trim value.data).getLast? = some c → isTrimChar c = false) := by
  have hlen : ¬ files.length = 0 := fun h => hne (List.length_eq_zero.1 h)
  refine ⟨?_, outputFilename_eq value, ?_, trim_head value.data, trim_getLast value.data⟩
  · simp only [mergePDFs, hlen, if_false, hok]
  · refine ⟨_, _, trim_decomposition value.data, ?_, ?_⟩
    · exact List.all_eq_true.2 (fun c hc => (List.mem_takeWhile_imp hc))
    · rw [List.all_reverse]
      exact List.all_eq_true.2 (fun c hc => (List.mem_takeWhile_imp hc))

/-- Witness for C9: the value `"  report "` names the download `report.pdf`; a blank
value names it `merged-document.pdf`. -/
theorem mergePDFs_download_filename_witness :
    (mergePDFs (⟨fun buffer => some buffer⟩ : PDFLib Nat)
        [some ⟨1, ⟨"application/pdf", "a.pdf", 2, some [7, 8]⟩, "a.pdf", "2 Bytes", [7, 8]⟩]
        "  report ").trace =
      [.showLoading, .create, .load [7, 8], .copyPages [0, 1], .addPage 7, .addPage 8,
        .save, .download [7, 8] "report.pdf", .hideLoading] ∧
    outputFilename "report" = "report.pdf" ∧
    outputFilename " \t\n" = "merged-document.pdf" ∧
    outputFilename "" = "merged-document.pdf" := by
  have h := mergePDFs_download_filename (⟨fun buffer => some buffer⟩ : PDFLib Nat)
    [some ⟨1, ⟨"application/pdf", "a.pdf", 2, some [7, 8]⟩, "a.pdf", "2 Bytes", [7, 8]⟩]
    "  report " [7, 8]
    [.showLoading, .create, .load [7, 8], .copyPages [0, 1], .addPage 7, .addPage 8]
    (by simp) rfl
  exact ⟨h.1, by decide, by decide, by decide⟩

end Claims

end PDFMerger
